import Mathlib

set_option maxHeartbeats 1000000

/-
Verification of the protosocket echo server in picosec/echo/echo6.c.

The file under verification is the application: the static 10-byte buffer
(line 34), the handle_connection protothread (lines 46-97) and the
example_psock_server_process service loop (lines 121-213).  The protosocket
and protothread primitives themselves (PSOCK_SEND_STR, PSOCK_READTO,
PSOCK_SEND, PSOCK_CLOSE, PSOCK_INIT) live elsewhere in the repository and
are modelled here from the design specification, sections 4.1 and 4.2.
-/

namespace Echo6

/-- Delimiter byte of the read operation: the newline character passed to
PSOCK_READTO in handle_connection (echo6.c line 76). -/
def delimByte : Nat := 10

/-- Capacity of the static receive buffer: `static char buffer[10]`
(echo6.c line 34), bound to the protosocket by
`PSOCK_INIT(&ps, buffer, sizeof(buffer))` (line 184). -/
def bufCap : Nat := 10

/-- Bytes of the greeting string sent at echo6.c line 65. -/
def greetingBytes : List Nat :=
  "Welcome, please type something and press return.\n".data.map Char.toNat

/-- Bytes of the label string sent at echo6.c line 84. -/
def labelBytes : List Nat :=
  "Got the following data: ".data.map Char.toNat

/-- Bytes of the farewell string sent at echo6.c line 86. -/
def byeBytes : List Nat :=
  "Good bye!\r\n".data.map Char.toNat

/-- Modelled from the spec: progress record of one `read_until` operation
(spec 4.2; the implementation PSOCK_READTO/psock_readto is not under src/).
`fill` is the number of bytes captured so far, `done` whether the
operation has completed (delimiter seen or capacity reached). -/
structure ReadState where
  fill : Nat
  done : Bool
deriving DecidableEq

/-- Modelled from the spec: `read_until` consumes one incoming byte
(spec 4.2; psock_readto is not under src/).  The state is paired with the
contents of the static buffer.  A byte after completion is consumed but
discarded; the delimiter completes the operation without being stored or
counted; any other byte is stored at the current fill position, and the
operation completes when the buffer reaches capacity. -/
def readByte (s : ReadState × List Nat) (b : Nat) : ReadState × List Nat :=
  if s.1.done then s
  else if b = delimByte then (⟨s.1.fill, true⟩, s.2)
  else (⟨s.1.fill + 1, decide (s.1.fill + 1 = bufCap)⟩, s.2.set s.1.fill b)

/-- Modelled from the spec: `read_until` consumes one transport
data-arrival event carrying a chunk of bytes, byte by byte (spec 4.2). -/
def readChunk (s : ReadState × List Nat) (chunk : List Nat) : ReadState × List Nat :=
  chunk.foldl readByte s

/-- Modelled from the spec: `read_until` across a sequence of transport
data-arrival events, one chunk per event (spec 4.2). -/
def readEvents (s : ReadState × List Nat) (chunks : List (List Nat)) : ReadState × List Nat :=
  chunks.foldl readChunk s

/-- Modelled from the spec: the read state installed by PSOCK_INIT —
nothing captured yet, operation not complete.  The buffer storage itself
is NOT cleared by PSOCK_INIT (echo6.c line 184 passes the static buffer
as is). -/
def initRead : ReadState := ⟨0, false⟩

/-- The captured bytes of a read: the first `fill` bytes of the buffer
(PSOCK_DATALEN gives `fill`; echo6.c line 85 sends `buffer[0..fill]`). -/
def captureOf (s : ReadState × List Nat) : List Nat := s.2.take s.1.fill

/-- An all-zero buffer of the static buffer's size, used as a concrete
initial storage in witnesses. -/
def zeroBuf : List Nat := List.replicate bufCap 0

theorem take_set_succ (l : List Nat) (i : Nat) (x : Nat) (h : i < l.length) :
    (l.set i x).take (i + 1) = l.take i ++ [x] := by
  induction l generalizing i with
  | nil => simp at h
  | cons a t ih =>
      cases i with
      | zero => simp
      | succ j =>
          simp only [List.set, List.take, List.cons_append, List.cons.injEq, true_and]
          exact ih j (by simpa using h)

theorem readChunk_no_delim (input : List Nat) :
    ∀ s : ReadState × List Nat, delimByte ∉ input →
    s.1.fill ≤ bufCap → s.1.done = decide (s.1.fill = bufCap) → s.2.length = bufCap →
    (readChunk s input).1.fill = min (s.1.fill + input.length) bufCap ∧
    (readChunk s input).1.done = decide ((readChunk s input).1.fill = bufCap) ∧
    (readChunk s input).2.length = bufCap ∧
    captureOf (readChunk s input) = captureOf s ++ input.take (bufCap - s.1.fill) := by
  induction input with
  | nil =>
      intro s hnd hf hd hl
      simp only [readChunk, List.foldl_nil, List.length_nil, Nat.add_zero, captureOf,
        List.take_nil, List.append_nil]
      exact ⟨by omega, hd, hl, trivial⟩
  | cons b t ih =>
      intro s hnd hf hd hl
      have hb : b ≠ delimByte := by
        intro h; exact hnd (by simp [h])
      have ht : delimByte ∉ t := fun h => hnd (List.mem_cons_of_mem _ h)
      rw [show readChunk s (b :: t) = readChunk (readByte s b) t from rfl]
      cases hB : s.1.done with
      | true =>
          have hfull : s.1.fill = bufCap := by
            rw [hB] at hd; exact of_decide_eq_true hd.symm
          have hby : readByte s b = s := by simp [readByte, hB]
          rw [hby]
          obtain ⟨i1, i2, i3, i4⟩ := ih s ht hf hd hl
          refine ⟨?_, i2, i3, ?_⟩
          · rw [i1]; simp only [List.length_cons]; omega
          · rw [i4, hfull]; simp
      | false =>
          have hlt : s.1.fill < bufCap := by
            rw [hB] at hd
            have := of_decide_eq_false hd.symm
            omega
          have hby : readByte s b =
              (⟨s.1.fill + 1, decide (s.1.fill + 1 = bufCap)⟩, s.2.set s.1.fill b) := by
            simp [readByte, hB, hb]
          rw [hby]
          obtain ⟨i1, i2, i3, i4⟩ :=
            ih (⟨s.1.fill + 1, decide (s.1.fill + 1 = bufCap)⟩, s.2.set s.1.fill b) ht
              (by show s.1.fill + 1 ≤ bufCap; omega) rfl (by simpa using hl)
          refine ⟨?_, i2, i3, ?_⟩
          · rw [i1]; simp only [List.length_cons]; omega
          · rw [i4]
            have hcap : captureOf (⟨s.1.fill + 1, decide (s.1.fill + 1 = bufCap)⟩,
                s.2.set s.1.fill b) = captureOf s ++ [b] := by
              simp only [captureOf]
              exact take_set_succ s.2 s.1.fill b (by omega)
            rw [hcap]
            have hsub : bufCap - s.1.fill = (bufCap - (s.1.fill + 1)) + 1 := by omega
            rw [hsub, List.take_succ_cons, List.append_assoc, List.singleton_append]

theorem readChunk_inv (chunk : List Nat) :
    ∀ s : ReadState × List Nat,
    s.1.fill ≤ bufCap → (s.1.done = false → s.1.fill < bufCap) → s.2.length = bufCap →
    (readChunk s chunk).1.fill ≤ bufCap ∧
    ((readChunk s chunk).1.done = false → (readChunk s chunk).1.fill < bufCap) ∧
    (readChunk s chunk).2.length = bufCap := by
  induction chunk with
  | nil => intro s hf hdf hl; exact ⟨hf, hdf, hl⟩
  | cons b t ih =>
      intro s hf hdf hl
      rw [show readChunk s (b :: t) = readChunk (readByte s b) t from rfl]
      cases hB : s.1.done with
      | true =>
          have hby : readByte s b = s := by simp [readByte, hB]
          rw [hby]; exact ih s hf hdf hl
      | false =>
          by_cases hb : b = delimByte
          · have hby : readByte s b = (⟨s.1.fill, true⟩, s.2) := by
              simp [readByte, hB, hb]
            rw [hby]
            exact ih _ hf (by simp) hl
          · have hby : readByte s b =
                (⟨s.1.fill + 1, decide (s.1.fill + 1 = bufCap)⟩, s.2.set s.1.fill b) := by
              simp [readByte, hB, hb]
            rw [hby]
            have hlt := hdf hB
            refine ih _ (by show s.1.fill + 1 ≤ bufCap; omega) ?_ (by simpa using hl)
            intro hfd
            have hne := of_decide_eq_false hfd
            show s.1.fill + 1 < bufCap
            omega

theorem readEvents_join (chunks : List (List Nat)) :
    ∀ s : ReadState × List Nat, readEvents s chunks = readChunk s chunks.flatten := by
  induction chunks with
  | nil => intro s; rfl
  | cons c cs ih =>
      intro s
      rw [show readEvents s (c :: cs) = readEvents (readChunk s c) cs from rfl, ih]
      simp [readChunk, List.foldl_append]

/-- Claim C1: for every input byte sequence of length L sent by the peer
before the newline delimiter, the completed read_until operation captures
exactly min(L, 10) bytes, those bytes are byte-for-byte the first
min(L, 10) bytes of the input, and the delimiter byte, though consumed,
is not counted in the reported data_length. -/
theorem readto_captures_min_prefix (buf0 input : List Nat)
    (hlen : buf0.length = bufCap) (hnd : delimByte ∉ input) :
    (readChunk (initRead, buf0) (input ++ [delimByte])).1.done = true ∧
    (readChunk (initRead, buf0) (input ++ [delimByte])).1.fill = min input.length bufCap ∧
    captureOf (readChunk (initRead, buf0) (input ++ [delimByte])) =
      input.take (min input.length bufCap) := by
  obtain ⟨hf, hd, hl, hc⟩ := readChunk_no_delim input (initRead, buf0) hnd
    (show (0 : Nat) ≤ bufCap by decide)
    (show false = decide ((0 : Nat) = bufCap) by decide) hlen
  have hf' : (readChunk (initRead, buf0) input).1.fill = min input.length bufCap := by
    rw [hf]
    show min (0 + input.length) bufCap = min input.length bufCap
    omega
  have hc' : captureOf (readChunk (initRead, buf0) input) = input.take bufCap := by
    rw [hc]; rfl
  have hsplit : readChunk (initRead, buf0) (input ++ [delimByte]) =
      readByte (readChunk (initRead, buf0) input) delimByte := by
    simp [readChunk, List.foldl_append]
  cases hmd : (readChunk (initRead, buf0) input).1.done with
  | true =>
      rw [hmd] at hd
      have hfill := of_decide_eq_true hd.symm
      have hbyte : readByte (readChunk (initRead, buf0) input) delimByte =
          readChunk (initRead, buf0) input := by
        simp [readByte, hmd]
      rw [hsplit, hbyte]
      refine ⟨hmd, hf', ?_⟩
      rw [hc', show min input.length bufCap = bufCap from by omega]
  | false =>
      rw [hmd] at hd
      have hne := of_decide_eq_false hd.symm
      have hLlt : input.length < bufCap := by omega
      have hbyte : readByte (readChunk (initRead, buf0) input) delimByte =
          (⟨(readChunk (initRead, buf0) input).1.fill, true⟩,
            (readChunk (initRead, buf0) input).2) := by
        simp [readByte, hmd]
      rw [hsplit, hbyte]
      refine ⟨rfl, hf', ?_⟩
      show (readChunk (initRead, buf0) input).2.take
        (readChunk (initRead, buf0) input).1.fill = input.take (min input.length bufCap)
      rw [show min input.length bufCap = input.length from by omega]
      rw [captureOf] at hc'
      rw [hc', List.take_of_length_le (le_of_lt hLlt), List.take_length]

/-- Witness for C1 at the concrete input "hello" (5 bytes, no delimiter)
followed by the newline, starting from the all-zero buffer. -/
theorem readto_captures_min_prefix_witness :
    zeroBuf.length = bufCap ∧ delimByte ∉ [104, 101, 108, 108, 111] ∧
    ((readChunk (initRead, zeroBuf) ([104, 101, 108, 108, 111] ++ [delimByte])).1.done = true ∧
     (readChunk (initRead, zeroBuf) ([104, 101, 108, 108, 111] ++ [delimByte])).1.fill =
       min ([104, 101, 108, 108, 111] : List Nat).length bufCap ∧
     captureOf (readChunk (initRead, zeroBuf) ([104, 101, 108, 108, 111] ++ [delimByte])) =
       ([104, 101, 108, 108, 111] : List Nat).take
         (min ([104, 101, 108, 108, 111] : List Nat).length bufCap)) :=
  ⟨by decide, by decide,
    readto_captures_min_prefix zeroBuf [104, 101, 108, 108, 111] (by decide) (by decide)⟩

/-- Claim C2: for an input of length L > C followed by the delimiter, the
read state produced (data_length, completion flag and buffer contents) is
identical for all ways of partitioning the bytes into transport
data-arrival events. -/
theorem readto_fragmentation_invariant (buf0 bs : List Nat)
    (chunks1 chunks2 : List (List Nat)) (_hL : bufCap < bs.length)
    (h1 : chunks1.flatten = bs ++ [delimByte]) (h2 : chunks2.flatten = bs ++ [delimByte]) :
    readEvents (initRead, buf0) chunks1 = readEvents (initRead, buf0) chunks2 := by
  rw [readEvents_join, readEvents_join, h1, h2]

/-- Witness for C2: 11 bytes "0123456789A" plus the delimiter delivered
as one single event versus as three fragments. -/
theorem readto_fragmentation_invariant_witness :
    readEvents (initRead, zeroBuf) [[48, 49, 50, 51, 52, 53, 54, 55, 56, 57, 65, 10]] =
    readEvents (initRead, zeroBuf) [[48, 49, 50], [51, 52], [53, 54, 55, 56, 57, 65, 10]] :=
  readto_fragmentation_invariant zeroBuf [48, 49, 50, 51, 52, 53, 54, 55, 56, 57, 65]
    [[48, 49, 50, 51, 52, 53, 54, 55, 56, 57, 65, 10]]
    [[48, 49, 50], [51, 52], [53, 54, 55, 56, 57, 65, 10]]
    (by decide) (by decide) (by decide)

/-- Transport events delivered to the process (the tcpip events tested by
uip_connected, uip_newdata, uip_acked, uip_aborted, uip_closed and
uip_timedout in echo6.c lines 178 and 189, plus `plain` for an event that
is not a tcpip event and therefore does not satisfy
PROCESS_WAIT_EVENT_UNTIL at lines 172 and 196). -/
inductive UipEvent where
  | connected
  | newdata (chunk : List Nat)
  | acked (k : Nat)
  | aborted
  | closedEv
  | timedout
  | plain
deriving DecidableEq

/-- Suspension points of the handle_connection protothread (echo6.c lines
58-96): sending the greeting (line 65), reading up to the newline
(line 76), sending the label (line 84), sending the captured data
(line 85), sending the farewell (line 86) and, after PSOCK_CLOSE
(line 91), the finished script.  A send phase carries the bytes still to
hand to the transport; the phases after the read carry the completed
read's data_length. -/
inductive Phase where
  | greetingP (pending : List Nat)
  | readingP (rs : ReadState)
  | labelP (pending : List Nat) (dlen : Nat)
  | dataP (pending : List Nat) (dlen : Nat)
  | byeP (pending : List Nat) (dlen : Nat)
  | doneP (dlen : Nat)
deriving DecidableEq

/-- Result of resuming handle_connection once: the next phase, the buffer
contents, the bytes handed to the transport during this resumption, and
whether PSOCK_CLOSE was issued during it. -/
structure AdvRes where
  ph : Phase
  buf : List Nat
  out : List Nat
  creq : Bool
deriving DecidableEq

/-- Modelled from the spec: one resumption of the handle_connection
protothread on one transport event.  The PSOCK operation implementations
(psock.c, pt.h) are not under src/; their suspension behavior follows
spec 4.2 — a send in progress hands over up to k pending bytes when the
transport signals capacity for k and completes when none remain, the
read accumulates arriving bytes until delimiter or capacity, and the
close request is issued in the same resumption that completes the
farewell send.  The sequencing of the five operations is exactly that of
handle_connection (echo6.c lines 58-96). -/
def scriptAdvance (ph : Phase) (buf : List Nat) (e : UipEvent) : AdvRes :=
  match ph, e with
  | .greetingP pending, .acked k =>
      if pending.drop k = [] then ⟨.readingP initRead, buf, pending.take k, false⟩
      else ⟨.greetingP (pending.drop k), buf, pending.take k, false⟩
  | .readingP rs, .newdata chunk =>
      if (readChunk (rs, buf) chunk).1.done then
        ⟨.labelP labelBytes (readChunk (rs, buf) chunk).1.fill,
          (readChunk (rs, buf) chunk).2, [], false⟩
      else ⟨.readingP (readChunk (rs, buf) chunk).1, (readChunk (rs, buf) chunk).2, [], false⟩
  | .labelP pending dlen, .acked k =>
      if pending.drop k = [] then ⟨.dataP (buf.take dlen) dlen, buf, pending.take k, false⟩
      else ⟨.labelP (pending.drop k) dlen, buf, pending.take k, false⟩
  | .dataP pending dlen, .acked k =>
      if pending.drop k = [] then ⟨.byeP byeBytes dlen, buf, pending.take k, false⟩
      else ⟨.dataP (pending.drop k) dlen, buf, pending.take k, false⟩
  | .byeP pending dlen, .acked k =>
      if pending.drop k = [] then ⟨.doneP dlen, buf, pending.take k, true⟩
      else ⟨.byeP (pending.drop k) dlen, buf, pending.take k, false⟩
  | ph, _ => ⟨ph, buf, [], false⟩

/-- Accumulated execution of the connection handler script: current
phase, the static buffer contents, every byte handed to the transport so
far in order, and whether PSOCK_CLOSE has been issued so far. -/
structure ScriptExec where
  ph : Phase
  buf : List Nat
  out : List Nat
  creq : Bool
deriving DecidableEq

/-- One tcpip event processed by the script. -/
def scriptStep (s : ScriptExec) (e : UipEvent) : ScriptExec :=
  ⟨(scriptAdvance s.ph s.buf e).ph, (scriptAdvance s.ph s.buf e).buf,
    s.out ++ (scriptAdvance s.ph s.buf e).out, s.creq || (scriptAdvance s.ph s.buf e).creq⟩

/-- The script driven by a sequence of tcpip events. -/
def scriptExec (s : ScriptExec) (events : List UipEvent) : ScriptExec :=
  events.foldl scriptStep s

/-- Script execution as set up by PSOCK_INIT (echo6.c line 184): the
protothread at its beginning, the static buffer with whatever contents it
has (PSOCK_INIT does not clear it), nothing sent, no close requested. -/
def initExec (buf0 : List Nat) : ScriptExec :=
  ⟨.greetingP greetingBytes, buf0, [], false⟩

/-- Invariant tying each phase of the script to the bytes handed to the
transport so far. -/
def execInv (s : ScriptExec) : Prop :=
  s.buf.length = bufCap ∧
  match s.ph with
  | .greetingP pending => s.out ++ pending = greetingBytes ∧ s.creq = false
  | .readingP rs => s.out = greetingBytes ∧ s.creq = false ∧ rs.done = false ∧
      rs.fill < bufCap
  | .labelP pending dlen => s.out ++ pending = greetingBytes ++ labelBytes ∧
      s.creq = false ∧ dlen ≤ bufCap
  | .dataP pending dlen =>
      s.out ++ pending = greetingBytes ++ labelBytes ++ s.buf.take dlen ∧
      s.creq = false ∧ dlen ≤ bufCap
  | .byeP pending dlen =>
      s.out ++ pending = greetingBytes ++ labelBytes ++ s.buf.take dlen ++ byeBytes ∧
      s.creq = false ∧ dlen ≤ bufCap
  | .doneP dlen =>
      s.out = greetingBytes ++ labelBytes ++ s.buf.take dlen ++ byeBytes ∧
      s.creq = true ∧ dlen ≤ bufCap

theorem out_take_drop (out pending tgt : List Nat) (k : Nat) (h : out ++ pending = tgt) :
    (out ++ pending.take k) ++ pending.drop k = tgt := by
  rw [List.append_assoc, List.take_append_drop]; exact h

theorem out_take_all (out pending tgt : List Nat) (k : Nat) (h : out ++ pending = tgt)
    (hdk : pending.drop k = []) : out ++ pending.take k = tgt := by
  have h2 := out_take_drop out pending tgt k h
  rw [hdk, List.append_nil] at h2; exact h2

theorem execInv_noop (ph : Phase) (buf out : List Nat) (creq : Bool)
    (h : execInv ⟨ph, buf, out, creq⟩) : execInv ⟨ph, buf, out ++ [], creq || false⟩ := by
  rw [List.append_nil, Bool.or_false]; exact h

theorem execInv_step (s : ScriptExec) (e : UipEvent) (h : execInv s) :
    execInv (scriptStep s e) := by
  obtain ⟨ph, buf, out, creq⟩ := s
  obtain ⟨hbl, hph⟩ := h
  cases ph with
  | greetingP pending =>
      cases e
      case acked k =>
        obtain ⟨hout, hcr⟩ := hph
        simp only [scriptStep, scriptAdvance]
        split
        next hdk =>
          exact ⟨hbl, out_take_all out pending greetingBytes k hout hdk,
            by simpa using hcr, rfl, by decide⟩
        next hdk =>
          exact ⟨hbl, out_take_drop out pending greetingBytes k hout, by simpa using hcr⟩
      all_goals exact execInv_noop _ _ _ _ ⟨hbl, hph⟩
  | readingP rs =>
      cases e
      case newdata chunk =>
        obtain ⟨hout, hcr, hdone, hflt⟩ := hph
        obtain ⟨hf', hdf', hl'⟩ :=
          readChunk_inv chunk (rs, buf) (le_of_lt hflt) (fun _ => hflt) hbl
        simp only [scriptStep, scriptAdvance]
        split
        next hdn =>
          exact ⟨hl', by rw [List.append_nil, hout], by simpa using hcr, hf'⟩
        next hdn =>
          exact ⟨hl', by rw [List.append_nil]; exact hout, by simpa using hcr,
            by simpa using hdn, hdf' (by simpa using hdn)⟩
      all_goals exact execInv_noop _ _ _ _ ⟨hbl, hph⟩
  | labelP pending dlen =>
      cases e
      case acked k =>
        obtain ⟨hout, hcr, hdl⟩ := hph
        simp only [scriptStep, scriptAdvance]
        split
        next hdk =>
          exact ⟨hbl,
            by rw [out_take_all out pending (greetingBytes ++ labelBytes) k hout hdk],
            by simpa using hcr, hdl⟩
        next hdk =>
          exact ⟨hbl, out_take_drop out pending (greetingBytes ++ labelBytes) k hout,
            by simpa using hcr, hdl⟩
      all_goals exact execInv_noop _ _ _ _ ⟨hbl, hph⟩
  | dataP pending dlen =>
      cases e
      case acked k =>
        obtain ⟨hout, hcr, hdl⟩ := hph
        simp only [scriptStep, scriptAdvance]
        split
        next hdk =>
          exact ⟨hbl,
            by rw [out_take_all out pending
              (greetingBytes ++ labelBytes ++ buf.take dlen) k hout hdk],
            by simpa using hcr, hdl⟩
        next hdk =>
          exact ⟨hbl,
            out_take_drop out pending (greetingBytes ++ labelBytes ++ buf.take dlen) k hout,
            by simpa using hcr, hdl⟩
      all_goals exact execInv_noop _ _ _ _ ⟨hbl, hph⟩
  | byeP pending dlen =>
      cases e
      case acked k =>
        obtain ⟨hout, hcr, hdl⟩ := hph
        simp only [scriptStep, scriptAdvance]
        split
        next hdk =>
          exact ⟨hbl,
            out_take_all out pending
              (greetingBytes ++ labelBytes ++ buf.take dlen ++ byeBytes) k hout hdk,
            by simp, hdl⟩
        next hdk =>
          exact ⟨hbl,
            out_take_drop out pending
              (greetingBytes ++ labelBytes ++ buf.take dlen ++ byeBytes) k hout,
            by simpa using hcr, hdl⟩
      all_goals exact execInv_noop _ _ _ _ ⟨hbl, hph⟩
  | doneP dlen =>
      cases e <;> exact execInv_noop _ _ _ _ ⟨hbl, hph⟩

theorem execInv_run (events : List UipEvent) :
    ∀ s : ScriptExec, execInv s → execInv (scriptExec s events) := by
  induction events with
  | nil => intro s h; exact h
  | cons e es ih => intro s h; exact ih (scriptStep s e) (execInv_step s e h)

theorem execInv_init (buf0 : List Nat) (hlen : buf0.length = bufCap) :
    execInv (initExec buf0) :=
  ⟨hlen, List.nil_append _, rfl⟩

/-- Claim C3: for every connection whose script runs to completion, the
bytes handed to the transport after the greeting are exactly the fixed
label string, then exactly the data_length captured bytes with no
padding (data_length between 0 and the capacity), then the fixed
farewell string terminated by carriage-return line-feed; and the close
request has been issued. -/
theorem script_reply_exact (buf0 : List Nat) (hlen : buf0.length = bufCap)
    (events : List UipEvent) (dlen : Nat)
    (hdone : (scriptExec (initExec buf0) events).ph = .doneP dlen) :
    ∃ data : List Nat,
      (scriptExec (initExec buf0) events).out =
        greetingBytes ++ (labelBytes ++ data ++ byeBytes) ∧
      data.length = dlen ∧ dlen ≤ bufCap ∧
      (∃ pre : List Nat, byeBytes = pre ++ [13, 10]) ∧
      (scriptExec (initExec buf0) events).creq = true := by
  obtain ⟨hbl, hph⟩ := execInv_run events (initExec buf0) (execInv_init buf0 hlen)
  rw [hdone] at hph
  obtain ⟨ho, hc, hd⟩ := hph
  refine ⟨(scriptExec (initExec buf0) events).buf.take dlen, ?_, ?_, hd, ?_, hc⟩
  · rw [ho]; simp [List.append_assoc]
  · rw [List.length_take, hbl]; omega
  · exact ⟨"Good bye!".data.map Char.toNat, by decide⟩

/-- Witness for C3: the script driven to completion by five concrete
events — one capacity signal for the greeting, the line "hello" plus
newline, and three capacity signals for label, data and farewell. -/
theorem script_reply_exact_witness :
    ∃ data : List Nat,
      (scriptExec (initExec zeroBuf)
        [.acked 100, .newdata [104, 101, 108, 108, 111, 10],
          .acked 100, .acked 100, .acked 100]).out =
        greetingBytes ++ (labelBytes ++ data ++ byeBytes) ∧
      data.length = 5 ∧ 5 ≤ bufCap ∧
      (∃ pre : List Nat, byeBytes = pre ++ [13, 10]) ∧
      (scriptExec (initExec zeroBuf)
        [.acked 100, .newdata [104, 101, 108, 108, 111, 10],
          .acked 100, .acked 100, .acked 100]).creq = true :=
  script_reply_exact zeroBuf (by decide)
    [.acked 100, .newdata [104, 101, 108, 108, 111, 10],
      .acked 100, .acked 100, .acked 100] 5 (by decide)

/-- Phases of the script that lie strictly after the completion of the
read operation. -/
def afterRead : Phase → Bool
  | .labelP _ _ => true
  | .dataP _ _ => true
  | .byeP _ _ => true
  | .doneP _ => true
  | _ => false

/-- Claim C6: within every connection's script execution, the greeting is
fully handed to the transport before the read makes any progress; any
byte handed to the transport beyond the greeting implies the read has
completed; and the close request is issued only once the farewell is
fully handed to the transport. -/
theorem script_step_ordering (buf0 : List Nat) (hlen : buf0.length = bufCap)
    (events : List UipEvent) :
    (∀ rs : ReadState, (scriptExec (initExec buf0) events).ph = .readingP rs →
      (scriptExec (initExec buf0) events).out = greetingBytes) ∧
    (∀ extra : List Nat, extra ≠ [] →
      (scriptExec (initExec buf0) events).out = greetingBytes ++ extra →
      afterRead (scriptExec (initExec buf0) events).ph = true) ∧
    ((scriptExec (initExec buf0) events).creq = true →
      ∃ dlen : Nat, (scriptExec (initExec buf0) events).ph = .doneP dlen ∧
        (scriptExec (initExec buf0) events).out =
          greetingBytes ++ labelBytes ++ (scriptExec (initExec buf0) events).buf.take dlen
            ++ byeBytes) := by
  obtain ⟨hbl, hph⟩ := execInv_run events (initExec buf0) (execInv_init buf0 hlen)
  cases hp : (scriptExec (initExec buf0) events).ph with
  | greetingP pending =>
      rw [hp] at hph
      obtain ⟨hout, hcr⟩ := hph
      refine ⟨?_, ?_, ?_⟩
      · intro rs hrs; cases hrs
      · intro extra hne hex
        have l1 := congrArg List.length hout
        have l2 := congrArg List.length hex
        simp only [List.length_append] at l1 l2
        exact absurd (List.eq_nil_of_length_eq_zero (by omega)) hne
      · intro hcq; rw [hcr] at hcq; cases hcq
  | readingP rs =>
      rw [hp] at hph
      obtain ⟨hout, hcr, _, _⟩ := hph
      refine ⟨fun _ _ => hout, ?_, ?_⟩
      · intro extra hne hex
        rw [hout] at hex
        have l2 := congrArg List.length hex
        simp only [List.length_append] at l2
        exact absurd (List.eq_nil_of_length_eq_zero (by omega)) hne
      · intro hcq; rw [hcr] at hcq; cases hcq
  | labelP pending dlen =>
      rw [hp] at hph
      obtain ⟨_, hcr, _⟩ := hph
      refine ⟨?_, fun _ _ _ => rfl, ?_⟩
      · intro rs hrs; cases hrs
      · intro hcq; rw [hcr] at hcq; cases hcq
  | dataP pending dlen =>
      rw [hp] at hph
      obtain ⟨_, hcr, _⟩ := hph
      refine ⟨?_, fun _ _ _ => rfl, ?_⟩
      · intro rs hrs; cases hrs
      · intro hcq; rw [hcr] at hcq; cases hcq
  | byeP pending dlen =>
      rw [hp] at hph
      obtain ⟨_, hcr, _⟩ := hph
      refine ⟨?_, fun _ _ _ => rfl, ?_⟩
      · intro rs hrs; cases hrs
      · intro hcq; rw [hcr] at hcq; cases hcq
  | doneP dlen =>
      rw [hp] at hph
      obtain ⟨hout, hcr, _⟩ := hph
      refine ⟨?_, fun _ _ _ => rfl, fun _ => ⟨dlen, rfl, hout⟩⟩
      intro rs hrs; cases hrs

/-- Witness for C6 at a concrete run: greeting acknowledged, then the
line "ab" plus newline received. -/
theorem script_step_ordering_witness :
    (∀ rs : ReadState,
      (scriptExec (initExec zeroBuf) [.acked 100, .newdata [97, 98, 10]]).ph = .readingP rs →
      (scriptExec (initExec zeroBuf) [.acked 100, .newdata [97, 98, 10]]).out =
        greetingBytes) ∧
    (∀ extra : List Nat, extra ≠ [] →
      (scriptExec (initExec zeroBuf) [.acked 100, .newdata [97, 98, 10]]).out =
        greetingBytes ++ extra →
      afterRead (scriptExec (initExec zeroBuf) [.acked 100, .newdata [97, 98, 10]]).ph =
        true) ∧
    ((scriptExec (initExec zeroBuf) [.acked 100, .newdata [97, 98, 10]]).creq = true →
      ∃ dlen : Nat,
        (scriptExec (initExec zeroBuf) [.acked 100, .newdata [97, 98, 10]]).ph =
          .doneP dlen ∧
        (scriptExec (initExec zeroBuf) [.acked 100, .newdata [97, 98, 10]]).out =
          greetingBytes ++ labelBytes ++
            (scriptExec (initExec zeroBuf)
              [.acked 100, .newdata [97, 98, 10]]).buf.take dlen ++ byeBytes) :=
  script_step_ordering zeroBuf (by decide) [.acked 100, .newdata [97, 98, 10]]

/-- Predicate: the event is a tcpip event, i.e. satisfies
`PROCESS_WAIT_EVENT_UNTIL(ev == tcpip_event)` (echo6.c lines 172, 196). -/
def isTcpip : UipEvent → Bool
  | .plain => false
  | _ => true

/-- Predicate: the event reports a terminal transport condition, as
tested by the inner loop condition
`uip_aborted() || uip_closed() || uip_timedout()` (echo6.c line 189). -/
def isTerminal : UipEvent → Bool
  | .aborted => true
  | .closedEv => true
  | .timedout => true
  | _ => false

/-- Mode of the service loop: LISTENING (process waiting at echo6.c line
172) or SERVICING one accepted connection (process waiting at line 196
with the protothread at the given phase). -/
inductive Mode where
  | listening
  | servicing (ph : Phase)
deriving DecidableEq

/-- State of example_psock_server_process: its mode plus the contents of
the static buffer, which persists across connections. -/
structure ServerState where
  mode : Mode
  sbuf : List Nat
deriving DecidableEq

/-- Observable result of delivering one event to the process: successor
state, bytes handed to the transport during the event, whether
handle_connection was invoked, whether PSOCK_INIT was executed, and
whether PSOCK_CLOSE was issued. -/
structure StepRes where
  next : ServerState
  sent : List Nat
  handled : Bool
  inited : Bool
  creq : Bool
deriving DecidableEq

/-- One event delivered to example_psock_server_process (echo6.c lines
166-207).  In LISTENING, a tcpip connection event runs PSOCK_INIT (line
184) and enters the inner loop, whose body first waits at line 196 — so
handle_connection is NOT called during the connection event itself; any
other tcpip event just re-enters the outer wait.  In SERVICING, a tcpip
event wakes the wait at line 196, handle_connection runs once (line 204),
and then the loop condition at line 189 is re-evaluated with the same
event's flags: a terminal event exits the inner loop back to LISTENING,
any other event returns to the wait at line 196.  A non-tcpip event
satisfies neither wait. -/
def serverStep (st : ServerState) (e : UipEvent) : StepRes :=
  if isTcpip e then
    match st.mode with
    | .listening =>
        if e = .connected then
          ⟨⟨.servicing (.greetingP greetingBytes), st.sbuf⟩, [], false, true, false⟩
        else ⟨st, [], false, false, false⟩
    | .servicing ph =>
        if isTerminal e then
          ⟨⟨.listening, (scriptAdvance ph st.sbuf e).buf⟩,
            (scriptAdvance ph st.sbuf e).out, true, false, (scriptAdvance ph st.sbuf e).creq⟩
        else
          ⟨⟨.servicing (scriptAdvance ph st.sbuf e).ph, (scriptAdvance ph st.sbuf e).buf⟩,
            (scriptAdvance ph st.sbuf e).out, true, false, (scriptAdvance ph st.sbuf e).creq⟩
  else ⟨st, [], false, false, false⟩

/-- Counterexample to claim C4 as stated: on the connection event itself
nothing is sent.  The process runs PSOCK_INIT and then waits for a
further tcpip event (echo6.c line 196) before handle_connection first
runs, so the nonempty greeting has not been handed to the transport when
the connection event has been fully processed. -/
theorem greeting_not_sent_on_connect :
    (serverStep ⟨.listening, zeroBuf⟩ .connected).sent = [] ∧ greetingBytes ≠ [] := by
  exact ⟨rfl, by decide⟩

/-- Claim C4 amended: the greeting is not handed to the transport on the
connection event itself — a further tcpip event is required.  The
connection event only initializes the protosocket and enters SERVICING
with the whole greeting pending; on the next send-capacity event whose
capacity covers the greeting, the whole greeting is handed over. -/
theorem greeting_sent_on_next_event (buf0 : List Nat) (k : Nat)
    (hk : greetingBytes.length ≤ k) :
    (serverStep ⟨.listening, buf0⟩ .connected).sent = [] ∧
    (serverStep ⟨.listening, buf0⟩ .connected).next =
      ⟨.servicing (.greetingP greetingBytes), buf0⟩ ∧
    (serverStep (serverStep ⟨.listening, buf0⟩ .connected).next (.acked k)).sent =
      greetingBytes := by
  refine ⟨rfl, rfl, ?_⟩
  show (serverStep ⟨.servicing (.greetingP greetingBytes), buf0⟩ (.acked k)).sent =
    greetingBytes
  have hdk : greetingBytes.drop k = [] := List.drop_eq_nil_of_le hk
  simp [serverStep, isTcpip, isTerminal, scriptAdvance, hdk, List.take_of_length_le hk]

/-- Witness for the amended C4 with capacity 1000. -/
theorem greeting_sent_on_next_event_witness :
    (serverStep ⟨.listening, zeroBuf⟩ .connected).sent = [] ∧
    (serverStep ⟨.listening, zeroBuf⟩ .connected).next =
      ⟨.servicing (.greetingP greetingBytes), zeroBuf⟩ ∧
    (serverStep (serverStep ⟨.listening, zeroBuf⟩ .connected).next (.acked 1000)).sent =
      greetingBytes :=
  greeting_sent_on_next_event zeroBuf 1000 (by decide)

/-- Counterexample to claim C5 as stated: an abort event arriving while
the script is suspended in the read operation does resume the Connection
Handler once more — the wait at echo6.c line 196 is satisfied by the
abort event and handle_connection is called at line 204 before the loop
condition at line 189 is re-evaluated. -/
theorem handler_resumed_on_abort :
    (serverStep ⟨.servicing (.readingP initRead), zeroBuf⟩ .aborted).handled = true := by
  decide

/-- Claim C5 amended: on the event that reports the terminal condition
the service loop calls handle_connection once more, and only then
detects the condition and returns to LISTENING; in LISTENING no event
causes a handle_connection call, so the script is never resumed again
for that connection after the terminal event has been processed. -/
theorem handler_discarded_after_terminal (ph : Phase) (buf : List Nat) (e : UipEvent)
    (ht : isTerminal e = true) :
    (serverStep ⟨.servicing ph, buf⟩ e).handled = true ∧
    (serverStep ⟨.servicing ph, buf⟩ e).next.mode = .listening ∧
    (∀ (buf2 : List Nat) (e2 : UipEvent),
      (serverStep ⟨.listening, buf2⟩ e2).handled = false) := by
  have htc : isTcpip e = true := by cases e <;> simp_all [isTerminal, isTcpip]
  refine ⟨?_, ?_, ?_⟩
  · simp [serverStep, htc, ht]
  · simp [serverStep, htc, ht]
  · intro buf2 e2; cases e2 <;> rfl

/-- Witness for the amended C5: abort while suspended in the read. -/
theorem handler_discarded_after_terminal_witness :
    (serverStep ⟨.servicing (.readingP initRead), zeroBuf⟩ .aborted).handled = true ∧
    (serverStep ⟨.servicing (.readingP initRead), zeroBuf⟩ .aborted).next.mode =
      .listening ∧
    (∀ (buf2 : List Nat) (e2 : UipEvent),
      (serverStep ⟨.listening, buf2⟩ e2).handled = false) :=
  handler_discarded_after_terminal (.readingP initRead) zeroBuf .aborted (by decide)

/-- Claim C7: on every termination path — graceful close, abort, or
timeout — the service loop returns to LISTENING whatever phase the
script is in (finished or not).  The LISTENING mode constructor carries
no socket or task binding, so the Buffered Line Socket and Resumable
Task pairing is discarded unconditionally. -/
theorem teardown_returns_to_listening (ph : Phase) (buf : List Nat) (e : UipEvent)
    (ht : isTerminal e = true) :
    (serverStep ⟨.servicing ph, buf⟩ e).next.mode = .listening := by
  have htc : isTcpip e = true := by cases e <;> simp_all [isTerminal, isTcpip]
  simp [serverStep, htc, ht]

/-- Witness for C7: a peer close arriving after the script has finished
(graceful path), at the concrete finished phase. -/
theorem teardown_returns_to_listening_witness :
    (serverStep ⟨.servicing (.doneP 5), zeroBuf⟩ .closedEv).next.mode = .listening :=
  teardown_returns_to_listening (.doneP 5) zeroBuf .closedEv (by decide)

/-- Claim C8: PSOCK_INIT is executed exactly on a connection event
received in LISTENING (echo6.c lines 178-184) and never while SERVICING,
so at most one protosocket/protothread binding ever exists — no second
Buffered Line Socket or Resumable Task is created while a connection is
being serviced. -/
theorem psock_init_only_on_connect (st : ServerState) (e : UipEvent) :
    (serverStep st e).inited =
      (decide (st.mode = .listening) && decide (e = .connected)) := by
  obtain ⟨mode, sbuf⟩ := st
  cases mode <;> cases e <;> rfl

theorem readChunk_indep (chunk : List Nat) :
    ∀ (rs : ReadState) (b1 b2 : List Nat),
    b1.length = bufCap → b2.length = bufCap →
    rs.fill ≤ bufCap → (rs.done = false → rs.fill < bufCap) →
    b1.take rs.fill = b2.take rs.fill →
    (readChunk (rs, b1) chunk).1 = (readChunk (rs, b2) chunk).1 ∧
    (readChunk (rs, b1) chunk).2.take (readChunk (rs, b1) chunk).1.fill =
      (readChunk (rs, b2) chunk).2.take (readChunk (rs, b1) chunk).1.fill := by
  induction chunk with
  | nil => intro rs b1 b2 h1 h2 hf hdf htk; exact ⟨rfl, htk⟩
  | cons b t ih =>
      intro rs b1 b2 h1 h2 hf hdf htk
      rw [show readChunk (rs, b1) (b :: t) = readChunk (readByte (rs, b1) b) t from rfl,
        show readChunk (rs, b2) (b :: t) = readChunk (readByte (rs, b2) b) t from rfl]
      cases hB : rs.done with
      | true =>
          rw [show readByte (rs, b1) b = (rs, b1) from by simp [readByte, hB],
            show readByte (rs, b2) b = (rs, b2) from by simp [readByte, hB]]
          exact ih rs b1 b2 h1 h2 hf hdf htk
      | false =>
          by_cases hb : b = delimByte
          · rw [show readByte (rs, b1) b = (⟨rs.fill, true⟩, b1) from by
                simp [readByte, hB, hb],
              show readByte (rs, b2) b = (⟨rs.fill, true⟩, b2) from by
                simp [readByte, hB, hb]]
            exact ih ⟨rs.fill, true⟩ b1 b2 h1 h2 hf (fun h => Bool.noConfusion h) htk
          · have hflt := hdf hB
            rw [show readByte (rs, b1) b =
                  (⟨rs.fill + 1, decide (rs.fill + 1 = bufCap)⟩, b1.set rs.fill b) from by
                simp [readByte, hB, hb],
              show readByte (rs, b2) b =
                  (⟨rs.fill + 1, decide (rs.fill + 1 = bufCap)⟩, b2.set rs.fill b) from by
                simp [readByte, hB, hb]]
            refine ih ⟨rs.fill + 1, decide (rs.fill + 1 = bufCap)⟩ (b1.set rs.fill b)
              (b2.set rs.fill b) (by simpa using h1) (by simpa using h2)
              (by show rs.fill + 1 ≤ bufCap; omega) ?_ ?_
            · intro hfd
              have hne := of_decide_eq_false hfd
              show rs.fill + 1 < bufCap
              omega
            · show (b1.set rs.fill b).take (rs.fill + 1) = (b2.set rs.fill b).take (rs.fill + 1)
              rw [take_set_succ b1 rs.fill b (by omega), take_set_succ b2 rs.fill b (by omega),
                htk]

/-- Relation between two script executions that differ only in the
residual contents of the static buffer left behind by an earlier
connection: same phase, same bytes handed to the transport, same close
status, and buffer contents agreeing on the region captured so far. -/
def bufRel (s1 s2 : ScriptExec) : Prop :=
  s1.out = s2.out ∧ s1.creq = s2.creq ∧
  s1.buf.length = bufCap ∧ s2.buf.length = bufCap ∧
  match s1.ph, s2.ph with
  | .greetingP p1, .greetingP p2 => p1 = p2
  | .readingP r1, .readingP r2 => r1 = r2 ∧ r1.done = false ∧ r1.fill < bufCap ∧
      s1.buf.take r1.fill = s2.buf.take r1.fill
  | .labelP p1 d1, .labelP p2 d2 => p1 = p2 ∧ d1 = d2 ∧
      s1.buf.take d1 = s2.buf.take d1
  | .dataP p1 d1, .dataP p2 d2 => p1 = p2 ∧ d1 = d2
  | .byeP p1 d1, .byeP p2 d2 => p1 = p2 ∧ d1 = d2
  | .doneP d1, .doneP d2 => d1 = d2
  | _, _ => False

theorem bufRel_noop (ph1 ph2 : Phase) (b1 b2 o1 o2 : List Nat) (c1 c2 : Bool)
    (h : bufRel ⟨ph1, b1, o1, c1⟩ ⟨ph2, b2, o2, c2⟩) :
    bufRel ⟨ph1, b1, o1 ++ [], c1 || false⟩ ⟨ph2, b2, o2 ++ [], c2 || false⟩ := by
  rw [List.append_nil, List.append_nil, Bool.or_false, Bool.or_false]; exact h

theorem bufRel_step (s1 s2 : ScriptExec) (e : UipEvent) (h : bufRel s1 s2) :
    bufRel (scriptStep s1 e) (scriptStep s2 e) := by
  obtain ⟨ph1, buf1, out1, creq1⟩ := s1
  obtain ⟨ph2, buf2, out2, creq2⟩ := s2
  obtain ⟨hout, hcr, hl1, hl2, hrel⟩ := h
  have hout2 : out1 = out2 := hout
  have hcr2 : creq1 = creq2 := hcr
  subst hout2
  subst hcr2
  cases ph1 <;> cases ph2 <;> try exact hrel.elim
  case greetingP.greetingP p1 p2 =>
    cases hrel
    cases e
    case acked k =>
      by_cases hdk : p1.drop k = []
      · simp only [scriptStep, scriptAdvance, hdk, if_pos]
        exact ⟨rfl, rfl, hl1, hl2, rfl, rfl, by decide, rfl⟩
      · simp only [scriptStep, scriptAdvance, if_neg hdk]
        exact ⟨rfl, rfl, hl1, hl2, rfl⟩
    all_goals
      exact bufRel_noop (.greetingP p1) (.greetingP p1) buf1 buf2 out1 out1 creq1 creq1
        ⟨rfl, rfl, hl1, hl2, rfl⟩
  case readingP.readingP r1 r2 =>
    obtain ⟨hrs, hdone, hflt, htk⟩ := hrel
    cases hrs
    cases e
    case newdata chunk =>
      obtain ⟨hst, htk'⟩ :=
        readChunk_indep chunk r1 buf1 buf2 hl1 hl2 (le_of_lt hflt) (fun _ => hflt) htk
      obtain ⟨hf1, hdf1, hlen1⟩ :=
        readChunk_inv chunk (r1, buf1) (le_of_lt hflt) (fun _ => hflt) hl1
      obtain ⟨hf2, hdf2, hlen2⟩ :=
        readChunk_inv chunk (r1, buf2) (le_of_lt hflt) (fun _ => hflt) hl2
      by_cases hdn : (readChunk (r1, buf1) chunk).1.done = true
      · have hdn2 : (readChunk (r1, buf2) chunk).1.done = true := by rw [← hst]; exact hdn
        simp only [scriptStep, scriptAdvance, hdn, hdn2, if_pos]
        refine ⟨rfl, rfl, hlen1, hlen2, rfl, ?_, ?_⟩
        · rw [hst]
        · exact htk'
      · have hdn2 : ¬((readChunk (r1, buf2) chunk).1.done = true) := by
          rw [← hst]; exact hdn
        simp only [scriptStep, scriptAdvance, if_neg hdn, if_neg hdn2]
        refine ⟨rfl, rfl, hlen1, hlen2, hst, by simpa using hdn,
          hdf1 (by simpa using hdn), htk'⟩
    all_goals
      exact bufRel_noop (.readingP r1) (.readingP r1) buf1 buf2 out1 out1 creq1 creq1
        ⟨rfl, rfl, hl1, hl2, rfl, hdone, hflt, htk⟩
  case labelP.labelP p1 d1 p2 d2 =>
    obtain ⟨hp, hd, htk⟩ := hrel
    cases hp
    cases hd
    cases e
    case acked k =>
      by_cases hdk : p1.drop k = []
      · simp only [scriptStep, scriptAdvance, hdk, if_pos]
        exact ⟨rfl, rfl, hl1, hl2, htk, rfl⟩
      · simp only [scriptStep, scriptAdvance, if_neg hdk]
        exact ⟨rfl, rfl, hl1, hl2, rfl, rfl, htk⟩
    all_goals
      exact bufRel_noop (.labelP p1 d1) (.labelP p1 d1) buf1 buf2 out1 out1 creq1 creq1
        ⟨rfl, rfl, hl1, hl2, rfl, rfl, htk⟩
  case dataP.dataP p1 d1 p2 d2 =>
    obtain ⟨hp, hd⟩ := hrel
    cases hp
    cases hd
    cases e
    case acked k =>
      by_cases hdk : p1.drop k = []
      · simp only [scriptStep, scriptAdvance, hdk, if_pos]
        exact ⟨rfl, rfl, hl1, hl2, rfl, rfl⟩
      · simp only [scriptStep, scriptAdvance, if_neg hdk]
        exact ⟨rfl, rfl, hl1, hl2, rfl, rfl⟩
    all_goals
      exact bufRel_noop (.dataP p1 d1) (.dataP p1 d1) buf1 buf2 out1 out1 creq1 creq1
        ⟨rfl, rfl, hl1, hl2, rfl, rfl⟩
  case byeP.byeP p1 d1 p2 d2 =>
    obtain ⟨hp, hd⟩ := hrel
    cases hp
    cases hd
    cases e
    case acked k =>
      by_cases hdk : p1.drop k = []
      · simp only [scriptStep, scriptAdvance, hdk, if_pos]
        exact ⟨rfl, rfl, hl1, hl2, rfl⟩
      · simp only [scriptStep, scriptAdvance, if_neg hdk]
        exact ⟨rfl, rfl, hl1, hl2, rfl, rfl⟩
    all_goals
      exact bufRel_noop (.byeP p1 d1) (.byeP p1 d1) buf1 buf2 out1 out1 creq1 creq1
        ⟨rfl, rfl, hl1, hl2, rfl, rfl⟩
  case doneP.doneP d1 d2 =>
    cases hrel
    cases e <;>
      exact bufRel_noop (.doneP d1) (.doneP d1) buf1 buf2 out1 out1 creq1 creq1
        ⟨rfl, rfl, hl1, hl2, rfl⟩

theorem bufRel_run (events : List UipEvent) :
    ∀ s1 s2 : ScriptExec, bufRel s1 s2 →
    bufRel (scriptExec s1 events) (scriptExec s2 events) := by
  induction events with
  | nil => intro s1 s2 h; exact h
  | cons e es ih =>
      intro s1 s2 h
      exact ih (scriptStep s1 e) (scriptStep s2 e) (bufRel_step s1 s2 e h)

/-- Claim C9: for two connections serviced sequentially, the second
connection's captured output and reply depend only on the second
connection's own events.  PSOCK_INIT does not clear the static buffer, so
the second script starts on whatever residual contents the first
connection left; nevertheless the bytes handed to the transport and the
close status of the second connection's script are identical for any two
residual buffer contents — no buffer content from the first connection
can appear in the second connection's capture or reply, even when the
second connection sends fewer bytes than the first did. -/
theorem second_connection_independent (b1 b2 : List Nat)
    (h1 : b1.length = bufCap) (h2 : b2.length = bufCap) (events : List UipEvent) :
    (scriptExec (initExec b1) events).out = (scriptExec (initExec b2) events).out ∧
    (scriptExec (initExec b1) events).creq = (scriptExec (initExec b2) events).creq := by
  have h0 : bufRel (initExec b1) (initExec b2) := ⟨rfl, rfl, h1, h2, rfl⟩
  obtain ⟨ho, hc, _, _, _⟩ := bufRel_run events (initExec b1) (initExec b2) h0
  exact ⟨ho, hc⟩

/-- Witness for C9: the buffer full of residual bytes 65 left by a first
connection versus the all-zero buffer; the second connection sends the
shorter line "hi". -/
theorem second_connection_independent_witness :
    (scriptExec (initExec (List.replicate bufCap 65))
      [.acked 100, .newdata [104, 105, 10], .acked 100, .acked 100, .acked 100]).out =
    (scriptExec (initExec zeroBuf)
      [.acked 100, .newdata [104, 105, 10], .acked 100, .acked 100, .acked 100]).out ∧
    (scriptExec (initExec (List.replicate bufCap 65))
      [.acked 100, .newdata [104, 105, 10], .acked 100, .acked 100, .acked 100]).creq =
    (scriptExec (initExec zeroBuf)
      [.acked 100, .newdata [104, 105, 10], .acked 100, .acked 100, .acked 100]).creq :=
  second_connection_independent (List.replicate bufCap 65) zeroBuf (by decide) (by decide)
    [.acked 100, .newdata [104, 105, 10], .acked 100, .acked 100, .acked 100]

end Echo6
